import Mathlib

/-!
# rss-feed-verifier: a verification development of `main.go`

The program reads an OPML subscription list, walks the outline tree and, for
every outline whose `type` attribute is `rss`, performs one HTTP GET and decides
from the status code, the exception list and the `Content-Type` header whether
the URL looks like a feed.

Embedding.

* Go strings are Lean `String`s; `strings.Contains` is `Contains`, a substring
  search on the character lists (for well-formed UTF-8 text, containment of
  byte sequences and of code-point sequences coincide).
* The HTTP client is a parameter `client : HttpLayer`, a function from the URL
  to either an error or a response (status code and headers).
* Side effects are recorded as a list of `Event`s: the call `client.Get`, the
  deferred `resp.Body.Close()`, every `fmt.Println`, and a ghost event marking
  the return of `ValidateXMLUrl` inside the goroutine of `VerifyFeed`.
* `VerifyFeed` starts one goroutine per outline and joins them with a
  `sync.WaitGroup`.  `VerifyFeedRun` is the set of event traces over all
  interleavings of the goroutines; `VerifyFeed` is the trace of the schedule
  that runs the goroutines one after the other, and is executable.
* The join itself is modelled by a transition system (`step`, `exec`) over the
  activations of `VerifyFeed`, their `WaitGroup` counters and the program
  counters of the goroutines; a schedule is a list of threads.
-/

namespace RssFeedVerifier

/-! ## Strings -/

/-- The prefix test used by the substring search: `p` is a prefix of `s`. -/
def hasPrefix : List Char → List Char → Bool
  | _, [] => true
  | [], _ :: _ => false
  | a :: s, b :: p => a == b && hasPrefix s p

/-- Substring search on character lists: `sub` occurs at some position of `s`. -/
def containsChars : List Char → List Char → Bool
  | [], sub => hasPrefix [] sub
  | a :: s, sub => hasPrefix (a :: s) sub || containsChars s sub

/-- Go `strings.Contains(s, substr)`: reports whether `substr` is within `s`. -/
def Contains (s substr : String) : Bool :=
  containsChars s.toList substr.toList

/-! ## Data model (`main.go`, lines 12-39) -/

/-- The list `EXCEPTIONS` of `main.go`: URLs known to be valid feeds that do not
have the correct Content-Type header. -/
def EXCEPTIONS : List String :=
  [ "https://os.phil-opp.com/atom.xml",
    "https://www.digitalocean.com/blog/rss" ]

/-- The type `OpmlOutline` of `main.go`: the nested outlines and the four
attributes `text`, `type`, `xmlUrl`, `htmlUrl`.  A `nil` slice of outlines is
the empty list. -/
inductive OpmlOutline where
  | mk (Outlines : List OpmlOutline) (Text : String) (Type_ : String)
      (XMLUrl : String) (HtmlUrl : String)

/-- Field `Outlines`. -/
def OpmlOutline.Outlines : OpmlOutline → List OpmlOutline
  | .mk os _ _ _ _ => os

/-- Field `Text`. -/
def OpmlOutline.Text : OpmlOutline → String
  | .mk _ t _ _ _ => t

/-- Field `Type` (the `type` attribute). -/
def OpmlOutline.Type_ : OpmlOutline → String
  | .mk _ _ ty _ _ => ty

/-- Field `XMLUrl`. -/
def OpmlOutline.XMLUrl : OpmlOutline → String
  | .mk _ _ _ u _ => u

/-- Field `HtmlUrl`. -/
def OpmlOutline.HtmlUrl : OpmlOutline → String
  | .mk _ _ _ _ h => h

/-! ## The HTTP layer -/

/-- The part of `http.Response` the program reads: the status code and the
header map (canonical key to its list of values). -/
structure Response where
  StatusCode : Int
  Header : List (String × List String)

/-- Go `http.StatusOK`. -/
def StatusOK : Int := 200

/-- Go `Header.Get(key)`: the first value stored under the key, and the empty
string when the key is absent or has no value. -/
def Header.Get (h : List (String × List String)) (key : String) : String :=
  match h.lookup key with
  | some (v :: _) => v
  | _ => ""

/-- A deterministic HTTP layer: the answer of `client.Get(url)`, an error or a
response, as a function of the URL. -/
abbrev HttpLayer := String → Except String Response

/-! ## Events -/

/-- Observable actions of the program, and one ghost event. -/
inductive Event where
  /-- The call `client.Get(url)`. -/
  | get (url : String)
  /-- The deferred `resp.Body.Close()` of the response obtained for `url`. -/
  | close (url : String)
  /-- A call of `fmt.Println`; the text is the line without its newline. -/
  | println (line : String)
  /-- Ghost event: `ValidateXMLUrl(url)` returned `ok` to `VerifyFeed`. -/
  | classified (url : String) (ok : Bool)
  deriving DecidableEq, Repr

/-- The lines printed in a trace, in order. -/
def printed (t : List Event) : List String :=
  t.filterMap fun e => match e with
    | .println l => some l
    | _ => none

/-- The URLs for which `client.Get` was called in a trace, in order. -/
def fetched (t : List Event) : List String :=
  t.filterMap fun e => match e with
    | .get u => some u
    | _ => none

/-- The completed calls of `ValidateXMLUrl` in a trace: URL and result. -/
def classifications (t : List Event) : List (String × Bool) :=
  t.filterMap fun e => match e with
    | .classified u ok => some (u, ok)
    | _ => none

/-! ## `ValidateXMLUrl` (`main.go`, lines 67-92) -/

/-- The loop `for _, exception := range EXCEPTIONS` of `ValidateXMLUrl`, over
the remaining entries: `true` when some entry is contained in `url` (the loop
then prints and returns), `false` when the loop falls through. -/
def exceptionLoop (url : String) : List String → Bool
  | [] => false
  | exception :: rest => if Contains url exception then true else exceptionLoop url rest

/-- The function `ValidateXMLUrl` of `main.go`: the returned boolean and the
events of the call. -/
def ValidateXMLUrl (client : HttpLayer) (url : String) : Bool × List Event :=
  match client url with
  | .error _ => (false, [.get url])
  | .ok resp =>
    if resp.StatusCode ≠ StatusOK then
      (false, [.get url, .close url])
    else
      let contentType := Header.Get resp.Header "Content-Type"
      if exceptionLoop url EXCEPTIONS then
        (true, [.get url, .println ("Exception: " ++ url), .close url])
      else if !Contains contentType "xml" then
        (false, [.get url, .close url])
      else
        (true, [.get url, .close url])

/-! ## `VerifyFeed` (`main.go`, lines 44-64) -/

/-- The events of one goroutine of `VerifyFeed` before it recurses: for an
outline of type `rss` the call of `ValidateXMLUrl` and, when it returned
`false`, the line `Invalid: <url>`; nothing for any other type. -/
def ownEvents (client : HttpLayer) (outline : OpmlOutline) : List Event :=
  if outline.Type_ = "rss" then
    (ValidateXMLUrl client outline.XMLUrl).2
      ++ [.classified outline.XMLUrl (ValidateXMLUrl client outline.XMLUrl).1]
      ++ (if !(ValidateXMLUrl client outline.XMLUrl).1
          then [.println ("Invalid: " ++ outline.XMLUrl)] else [])
  else []

mutual
/-- The function `VerifyFeed` of `main.go` under the schedule that runs the
goroutines of a list one after the other, each to completion. -/
def VerifyFeed (client : HttpLayer) : List OpmlOutline → List Event
  | [] => []
  | outline :: rest => goroutine client outline ++ VerifyFeed client rest
/-- The body of the goroutine started for one outline: its own events, then
the recursive call on the nested outlines. -/
def goroutine (client : HttpLayer) : OpmlOutline → List Event
  | .mk os t ty u h => ownEvents client (.mk os t ty u h) ++ VerifyFeed client os
end

/-- The interleavings of two traces: every merge that keeps the order of each. -/
inductive Shuffle {α : Type} : List α → List α → List α → Prop
  | nil : Shuffle [] [] []
  | left {a xs ys zs} : Shuffle xs ys zs → Shuffle (a :: xs) ys (a :: zs)
  | right {b xs ys zs} : Shuffle xs ys zs → Shuffle xs (b :: ys) (b :: zs)

/-- The traces of `VerifyFeed` over all schedules.  The goroutine of an outline
emits its own events and then a trace of the recursive call; the goroutines of
a list run concurrently, so a trace of the list is any interleaving of a trace
of the first goroutine with a trace of the remaining ones.  `wg.Wait` emits
nothing. -/
inductive VerifyFeedRun (client : HttpLayer) : List OpmlOutline → List Event → Prop
  | nil : VerifyFeedRun client [] []
  | cons {outline rest tc tr t} :
      VerifyFeedRun client outline.Outlines tc →
      VerifyFeedRun client rest tr →
      Shuffle (ownEvents client outline ++ tc) tr t →
      VerifyFeedRun client (outline :: rest) t

/-! ## Reference quantities

The quantities the statements compare the program with: the feeds of an
outline tree, the membership of a URL in the exception list, and the lines
expected for one feed. -/

mutual
/-- The `xmlUrl` values of the outlines of type `rss` in a list of outlines, at
every depth, duplicates included. -/
def rssUrls : List OpmlOutline → List String
  | [] => []
  | outline :: rest => rssUrlsOf outline ++ rssUrls rest
/-- The `xmlUrl` values of the outlines of type `rss` in one outline and below. -/
def rssUrlsOf : OpmlOutline → List String
  | .mk os _ ty u _ => (if ty = "rss" then [u] else []) ++ rssUrls os
end

mutual
/-- The number N of outlines of type `rss` in a list of outlines, at every depth. -/
def rssCount : List OpmlOutline → Nat
  | [] => 0
  | outline :: rest => rssCountOf outline + rssCount rest
/-- The number of outlines of type `rss` in one outline and below. -/
def rssCountOf : OpmlOutline → Nat
  | .mk os _ ty _ _ => (if ty = "rss" then 1 else 0) + rssCount os
end

/-- The URL contains some entry of `EXCEPTIONS` as a substring. -/
def matchesException (url : String) : Prop :=
  ∃ e ∈ EXCEPTIONS, e.toList <:+: url.toList

instance (url : String) : Decidable (matchesException url) := by
  unfold matchesException; infer_instance

/-- The HTTP layer answers the URL with a response of status 200. -/
def answers200 (client : HttpLayer) (url : String) : Prop :=
  ∃ resp, client url = .ok resp ∧ resp.StatusCode = 200

instance (client : HttpLayer) (url : String) : Decidable (answers200 client url) :=
  match h : client url with
  | .ok resp =>
    if hs : resp.StatusCode = 200 then isTrue ⟨resp, h, hs⟩
    else isFalse (by rintro ⟨r, hr, hr200⟩; rw [h] at hr; cases hr; exact hs hr200)
  | .error _ => isFalse (by rintro ⟨r, hr, _⟩; rw [h] at hr; cases hr)

/-- The lines the output section of the specification, read literally, assigns
to one outline of type `rss`: `Invalid: <url>` when the classification is
Invalid, and `Exception: <url>` when the URL is matched by the exception list. -/
def claimedLinesOf (client : HttpLayer) (url : String) : List String :=
  (if (ValidateXMLUrl client url).1 = false then ["Invalid: " ++ url] else [])
    ++ (if matchesException url then ["Exception: " ++ url] else [])

/-- The lines for one outline of type `rss` with the status gate of the
classifier: `Invalid: <url>` when the classification is Invalid, and
`Exception: <url>` when the GET was answered with status 200 and the URL is
matched by the exception list. -/
def reportedLinesOf (client : HttpLayer) (url : String) : List String :=
  (if (ValidateXMLUrl client url).1 = false then ["Invalid: " ++ url] else [])
    ++ (if answers200 client url ∧ matchesException url then ["Exception: " ++ url] else [])

/-! ## A second schedule -/

mutual
/-- The trace of `VerifyFeed` under the schedule that runs the goroutines of a
list in reverse order, the last one first, each to completion. -/
def VerifyFeedReversed (client : HttpLayer) : List OpmlOutline → List Event
  | [] => []
  | outline :: rest => VerifyFeedReversed client rest ++ goroutineReversed client outline
/-- The goroutine of one outline when nested lists are scheduled in reverse. -/
def goroutineReversed (client : HttpLayer) : OpmlOutline → List Event
  | .mk os t ty u h => ownEvents client (.mk os t ty u h) ++ VerifyFeedReversed client os
end

/-! ## Sample inputs -/

/-- The HTTP layer that gives every URL the same answer. -/
def constLayer (answer : Except String Response) : HttpLayer := fun _ => answer

/-- A response with the given status and a single `Content-Type` value. -/
def responseWith (status : Int) (contentType : String) : Response :=
  ⟨status, [("Content-Type", [contentType])]⟩

/-- A response with the given status and no header at all. -/
def bareResponse (status : Int) : Response := ⟨status, []⟩

/-- The mock HTTP layer of the fixture of the specification. -/
def fixtureLayer : HttpLayer := fun url =>
  if url = "http://good.test/feed" then .ok (responseWith 200 "application/xml")
  else if url = "http://bad.test/feed" then .ok (responseWith 200 "text/html")
  else if url = "http://nested.test/feed" then .ok (bareResponse 404)
  else .error "no such host"

/-- The outline tree of the fixture of the specification: two feeds and a
grouping outline without `xmlUrl` that holds one nested feed. -/
def fixtureOutlines : List OpmlOutline :=
  [ .mk [] "good" "rss" "http://good.test/feed" "",
    .mk [] "bad" "rss" "http://bad.test/feed" "",
    .mk [.mk [] "nested" "rss" "http://nested.test/feed" ""] "group" "" "" "" ]

/-- A tree for the traversal: a feed that also holds nested outlines, a
grouping outline that has an `xmlUrl` but no `rss` type, a repeated URL and a
feed at depth three. -/
def sampleOutlines : List OpmlOutline :=
  [ .mk [ .mk [] "inner" "rss" "http://a.test/inner" "",
          .mk [ .mk [] "deep" "rss" "http://a.test/feed" "" ] "folder" "" "" "" ]
      "both" "rss" "http://a.test/feed" "",
    .mk [] "untyped" "link" "http://b.test/feed" "",
    .mk [] "untagged" "" "http://c.test/feed" "" ]

/-- One feed whose URL is on the exception list. -/
def exceptionOutlines : List OpmlOutline :=
  [ .mk [] "phil-opp" "rss" "https://os.phil-opp.com/atom.xml" "" ]

/-! ## The `sync.WaitGroup` protocol of `VerifyFeed` as a transition system

The second model follows the goroutines of `VerifyFeed` step by step and keeps
only what synchronises them: the position of every activation of `VerifyFeed`
in its loop, the counter of its `WaitGroup`, and the program counter of every
goroutine.  A schedule is the list of the threads that move, one step each. -/

/-- Program counter of one goroutine `go func(outline OpmlOutline)` of
`VerifyFeed` (`main.go`, lines 49-60). -/
inductive TaskPc where
  /-- At `if outline.Type == "rss"`, before the classification (line 50). -/
  | classify
  /-- At `if outline.Outlines != nil` (line 55). -/
  | recurse
  /-- Inside the call `VerifyFeed(outline.Outlines)` (line 56). -/
  | inCall
  /-- At `wg.Done()` (line 59). -/
  | signal
  /-- The goroutine has executed `wg.Done()` and ended. -/
  | finished
  deriving DecidableEq, Repr

/-- One goroutine started by `VerifyFeed`. -/
structure Task where
  /-- The argument `outline` of the goroutine. -/
  outline : OpmlOutline
  /-- The activation of `VerifyFeed` that started it, whose `wg` it signals. -/
  parent : Nat
  /-- Where the goroutine stands. -/
  pc : TaskPc
  /-- The activation created by its call `VerifyFeed(outline.Outlines)`, once made. -/
  callee : Option Nat

/-- One activation of `VerifyFeed` (`main.go`, lines 44-64). -/
structure Frame where
  /-- The outlines the loop `for _, outline := range outlines` has yet to reach. -/
  pending : List OpmlOutline
  /-- The loop has executed `wg.Add(1)` for the first pending outline and not
  yet the `go` statement. -/
  added : Bool
  /-- The counter of `wg`. -/
  wg : Nat
  /-- The call `wg.Wait()` has returned, and with it the activation. -/
  returned : Bool

/-- A state of the program: all activations of `VerifyFeed` and all goroutines
started so far, each known by its index. -/
structure Config where
  frames : List Frame
  tasks : List Task

/-- A thread that can be scheduled: the code of an activation of `VerifyFeed`,
or the body of a goroutine outside its nested call. -/
inductive Thread where
  | frame (c : Nat)
  | task (g : Nat)
  deriving DecidableEq, Repr

/-- One step of activation `c` of `VerifyFeed`: `wg.Add(1)`, then the `go`
statement, for each outline in turn; after the loop `wg.Wait()`, which can
only be passed when the counter is zero.  `none` when the activation is
blocked in `wg.Wait()`, has returned, or does not exist. -/
def stepFrame (s : Config) (c : Nat) : Option Config :=
  match s.frames[c]? with
  | none => none
  | some f =>
    if f.returned then none
    else
      match f.pending with
      | outline :: rest =>
        if f.added then
          some { frames := s.frames.set c { f with pending := rest, added := false },
                 tasks := s.tasks ++ [⟨outline, c, .classify, none⟩] }
        else
          some { s with frames := s.frames.set c { f with wg := f.wg + 1, added := true } }
      | [] =>
        if f.wg = 0 then
          some { s with frames := s.frames.set c { f with returned := true } }
        else none

/-- One step of goroutine `g`: the classification, the nested call of
`VerifyFeed` when the outline has nested outlines (a new activation), the
return from that call once the activation has returned, and `wg.Done()` on the
`WaitGroup` of the activation that started the goroutine.  `none` when the
goroutine waits for its nested call, has ended, does not exist, or `wg.Done()`
would make the counter negative (a panic in Go). -/
def stepTask (s : Config) (g : Nat) : Option Config :=
  match s.tasks[g]? with
  | none => none
  | some t =>
    match t.pc with
    | .classify => some { s with tasks := s.tasks.set g { t with pc := .recurse } }
    | .recurse =>
      if t.outline.Outlines.isEmpty then
        some { s with tasks := s.tasks.set g { t with pc := .signal } }
      else
        some { frames := s.frames ++ [⟨t.outline.Outlines, false, 0, false⟩],
               tasks := s.tasks.set g { t with pc := .inCall, callee := some s.frames.length } }
    | .inCall =>
      match t.callee with
      | none => none
      | some c =>
        match s.frames[c]? with
        | none => none
        | some f =>
          if f.returned then some { s with tasks := s.tasks.set g { t with pc := .signal } }
          else none
    | .signal =>
      match s.frames[t.parent]? with
      | none => none
      | some f =>
        match f.wg with
        | 0 => none
        | n + 1 =>
          some { frames := s.frames.set t.parent { f with wg := n },
                 tasks := s.tasks.set g { t with pc := .finished } }
    | .finished => none

/-- One step of the scheduled thread. -/
def step (s : Config) : Thread → Option Config
  | .frame c => stepFrame s c
  | .task g => stepTask s g

/-- The state after a schedule, `none` when the schedule picks a thread that
cannot move. -/
def exec (s : Config) : List Thread → Option Config
  | [] => some s
  | a :: schedule => (step s a).bind fun s' => exec s' schedule

/-- The state in which `main` calls `VerifyFeed(outlines)`: activation 0 at the
head of its loop, no goroutine. -/
def initial (outlines : List OpmlOutline) : Config :=
  { frames := [⟨outlines, false, 0, false⟩], tasks := [] }

/-- Goroutine `g` was started by activation `c`, or by an activation called,
at any depth, from a goroutine started by `c`. -/
inductive StartedUnder (s : Config) : Nat → Nat → Prop
  | direct {g c : Nat} {t : Task} :
      s.tasks[g]? = some t → t.parent = c → StartedUnder s g c
  | nested {g g' c c' : Nat} {t' : Task} :
      StartedUnder s g' c → s.tasks[g']? = some t' → t'.callee = some c' →
      StartedUnder s g c' → StartedUnder s g c

/-- The goroutine exists and has ended. -/
def taskFinished (s : Config) (g : Nat) : Bool :=
  match s.tasks[g]? with
  | some t => t.pc == .finished
  | none => false

/-- The activation exists and has returned. -/
def frameReturned (s : Config) (c : Nat) : Bool :=
  match s.frames[c]? with
  | some f => f.returned
  | none => false

/-- The number of goroutines started by activation `c` that have not ended. -/
def unfinishedOf (s : Config) (c : Nat) : Nat :=
  s.tasks.countP fun t => decide (t.parent = c) && !(t.pc == .finished)

/-- A schedule for the fixture: the three goroutines are started, the third
makes its nested call, and everything runs to the return of activation 0. -/
def fixtureSchedule : List Thread :=
  [ .frame 0, .frame 0, .frame 0, .frame 0, .frame 0, .frame 0,
    .task 2, .task 2, .frame 1, .frame 1,
    .task 0, .task 3, .task 1, .task 3, .task 3,
    .frame 1, .task 2, .task 0, .task 1, .task 0, .task 1, .task 2, .frame 0 ]

/-- The invariant of the protocol.  The counter of every `WaitGroup` is the
number of goroutines of its activation that have not ended, plus one while the
loop stands between `wg.Add(1)` and `go`; an activation that has returned has
counter zero; a goroutine at or past `wg.Done()` that made a nested call has
seen it return; goroutines belong to existing activations; a goroutine before
its nested call has no callee. -/
structure Inv (s : Config) : Prop where
  counter : ∀ (c : Nat) (f : Frame), s.frames[c]? = some f →
    f.wg = unfinishedOf s c + (if f.added then 1 else 0)
  returned_zero : ∀ (c : Nat) (f : Frame), s.frames[c]? = some f → f.returned = true → f.wg = 0
  joined : ∀ (g : Nat) (t : Task) (c : Nat), s.tasks[g]? = some t → (t.pc = .signal ∨ t.pc = .finished) →
    t.callee = some c → frameReturned s c = true
  parent_lt : ∀ (g : Nat) (t : Task), s.tasks[g]? = some t → t.parent < s.frames.length
  early : ∀ (g : Nat) (t : Task), s.tasks[g]? = some t → (t.pc = .classify ∨ t.pc = .recurse) →
    t.callee = none

/-- The state the fixture reaches under `fixtureSchedule`: both activations
have returned and the four goroutines have ended. -/
def fixtureFinal : Config :=
  { frames := [⟨[], false, 0, true⟩, ⟨[], false, 0, true⟩],
    tasks :=
      [ ⟨.mk [] "good" "rss" "http://good.test/feed" "", 0, .finished, none⟩,
        ⟨.mk [] "bad" "rss" "http://bad.test/feed" "", 0, .finished, none⟩,
        ⟨.mk [.mk [] "nested" "rss" "http://nested.test/feed" ""] "group" "" "" "", 0,
          .finished, some 1⟩,
        ⟨.mk [] "nested" "rss" "http://nested.test/feed" "", 1, .finished, none⟩ ] }

/-! # Theorems -/

/-! ## Substring search -/

theorem hasPrefix_iff (s p : List Char) : hasPrefix s p = true ↔ p <+: s := by
  induction s generalizing p with
  | nil =>
    cases p with
    | nil => simp [hasPrefix]
    | cons b p => simp [hasPrefix]
  | cons a s ih =>
    cases p with
    | nil => simp [hasPrefix]
    | cons b p =>
      simp only [hasPrefix, Bool.and_eq_true, beq_iff_eq, ih, List.cons_prefix_cons]
      constructor
      · rintro ⟨h1, h2⟩; exact ⟨h1.symm, h2⟩
      · rintro ⟨h1, h2⟩; exact ⟨h1.symm, h2⟩

theorem containsChars_iff (s p : List Char) : containsChars s p = true ↔ p <:+: s := by
  induction s with
  | nil =>
    simp only [containsChars, hasPrefix_iff]
    constructor
    · intro h; exact h.isInfix
    · intro h; rw [List.infix_nil] at h; subst h; exact List.prefix_refl _
  | cons a s ih =>
    simp only [containsChars, Bool.or_eq_true, hasPrefix_iff, ih, List.infix_cons_iff]

theorem Contains_iff (s substr : String) :
    Contains s substr = true ↔ substr.toList <:+: s.toList := by
  simp only [Contains, containsChars_iff]

theorem exceptionLoop_iff (url : String) (l : List String) :
    exceptionLoop url l = true ↔ ∃ e ∈ l, Contains url e = true := by
  induction l with
  | nil => simp [exceptionLoop]
  | cons e l ih =>
    simp only [exceptionLoop, List.mem_cons, exists_eq_or_imp]
    by_cases h : Contains url e = true
    · simp [h]
    · simp [h, ih]

theorem exceptionLoop_eq_true_iff (url : String) :
    exceptionLoop url EXCEPTIONS = true ↔ matchesException url := by
  rw [exceptionLoop_iff]
  constructor
  · rintro ⟨e, he, h⟩; exact ⟨e, he, (Contains_iff _ _).1 h⟩
  · rintro ⟨e, he, h⟩; exact ⟨e, he, (Contains_iff _ _).2 h⟩

/-! ## The classifier `ValidateXMLUrl` -/

theorem printed_append (s t : List Event) : printed (s ++ t) = printed s ++ printed t := by
  simp [printed, List.filterMap_append]

theorem fetched_append (s t : List Event) : fetched (s ++ t) = fetched s ++ fetched t := by
  simp [fetched, List.filterMap_append]

theorem classifications_append (s t : List Event) :
    classifications (s ++ t) = classifications s ++ classifications t := by
  simp [classifications, List.filterMap_append]

theorem printed_ValidateXMLUrl (client : HttpLayer) (url : String) :
    printed (ValidateXMLUrl client url).2
      = if answers200 client url ∧ matchesException url then ["Exception: " ++ url] else [] := by
  unfold ValidateXMLUrl
  cases hget : client url with
  | error err =>
    have h : ¬ answers200 client url := by
      rintro ⟨r, hr, _⟩; rw [hget] at hr; cases hr
    simp [h, printed]
  | ok resp =>
    by_cases hs : resp.StatusCode = 200
    · have h : answers200 client url := ⟨resp, hget, hs⟩
      by_cases hm : matchesException url
      · have hl := (exceptionLoop_eq_true_iff url).2 hm
        simp [h, hm, hs, StatusOK, hl, printed]
      · have hl : exceptionLoop url EXCEPTIONS = false := by
          rw [← Bool.not_eq_true, exceptionLoop_eq_true_iff]; exact hm
        by_cases hc : Contains (Header.Get resp.Header "Content-Type") "xml" = true
        · simp [h, hm, hs, StatusOK, hl, hc, printed]
        · simp [h, hm, hs, StatusOK, hl, hc, printed]
    · have h : ¬ answers200 client url := by
        rintro ⟨r, hr, hr200⟩; rw [hget] at hr; cases hr; exact hs hr200
      simp [h, hs, StatusOK, printed]

theorem fetched_ValidateXMLUrl (client : HttpLayer) (url : String) :
    fetched (ValidateXMLUrl client url).2 = [url] := by
  unfold ValidateXMLUrl
  cases client url with
  | error err => simp [fetched]
  | ok resp =>
    simp only
    split_ifs <;> simp [fetched]

theorem classifications_ValidateXMLUrl (client : HttpLayer) (url : String) :
    classifications (ValidateXMLUrl client url).2 = [] := by
  unfold ValidateXMLUrl
  cases client url with
  | error err => simp [classifications]
  | ok resp =>
    simp only
    split_ifs <;> simp [classifications]

/-- C1. For every URL `U` that contains an entry of `EXCEPTIONS` as a substring
and every response with status 200, whatever its headers (so also with
`Content-Type: text/html` or no `Content-Type` at all), `ValidateXMLUrl` returns
`true` and prints exactly the line `Exception: U`. -/
theorem C1_exception_override (client : HttpLayer) (U : String) (resp : Response)
    (hget : client U = .ok resp) (hstatus : resp.StatusCode = 200)
    (hexc : matchesException U) :
    ValidateXMLUrl client U
        = (true, [.get U, .println ("Exception: " ++ U), .close U])
      ∧ printed (ValidateXMLUrl client U).2 = ["Exception: " ++ U] := by
  have hloop : exceptionLoop U EXCEPTIONS = true := (exceptionLoop_eq_true_iff U).2 hexc
  have hval : ValidateXMLUrl client U
      = (true, [.get U, .println ("Exception: " ++ U), .close U]) := by
    simp [ValidateXMLUrl, hget, hstatus, StatusOK, hloop]
  refine ⟨hval, ?_⟩
  rw [hval]; rfl

/-- Witness for C1: a URL containing the first exception entry, answered with
status 200 and `Content-Type: text/html`. -/
theorem C1_exception_override_witness :
    matchesException "https://os.phil-opp.com/atom.xml?page=2"
      ∧ ValidateXMLUrl (constLayer (.ok (responseWith 200 "text/html")))
          "https://os.phil-opp.com/atom.xml?page=2"
        = (true, [.get "https://os.phil-opp.com/atom.xml?page=2",
                  .println "Exception: https://os.phil-opp.com/atom.xml?page=2",
                  .close "https://os.phil-opp.com/atom.xml?page=2"]) :=
  ⟨by decide,
   (C1_exception_override (constLayer (.ok (responseWith 200 "text/html")))
      "https://os.phil-opp.com/atom.xml?page=2" (responseWith 200 "text/html") rfl rfl
      (by decide)).1⟩

/-- C2. For every URL `U`, on the exception list or not, and every response
whose status code is not 200, whatever its headers, `ValidateXMLUrl` returns
`false` and prints nothing, so no `Exception:` line. -/
theorem C2_non200_invalid (client : HttpLayer) (U : String) (resp : Response)
    (hget : client U = .ok resp) (hstatus : resp.StatusCode ≠ 200) :
    ValidateXMLUrl client U = (false, [.get U, .close U])
      ∧ printed (ValidateXMLUrl client U).2 = [] := by
  have hval : ValidateXMLUrl client U = (false, [.get U, .close U]) := by
    simp [ValidateXMLUrl, hget, hstatus, StatusOK]
  refine ⟨hval, ?_⟩
  rw [hval]; rfl

/-- Witness for C2: a URL on the exception list answered with status 404 and
`Content-Type: application/xml`. -/
theorem C2_non200_invalid_witness :
    matchesException "https://www.digitalocean.com/blog/rss"
      ∧ (responseWith 404 "application/xml").StatusCode ≠ 200
      ∧ ValidateXMLUrl (constLayer (.ok (responseWith 404 "application/xml")))
          "https://www.digitalocean.com/blog/rss"
        = (false, [.get "https://www.digitalocean.com/blog/rss",
                   .close "https://www.digitalocean.com/blog/rss"]) :=
  ⟨by decide, by decide,
   (C2_non200_invalid (constLayer (.ok (responseWith 404 "application/xml")))
      "https://www.digitalocean.com/blog/rss" (responseWith 404 "application/xml") rfl
      (by decide)).1⟩

/-- C3 as stated fails: a URL on the exception list answered with status 200
and `Content-Type: application/xml` prints the line `Exception: <url>`, the
ExceptionOverride outcome and not Valid. -/
theorem C3_counterexample :
    constLayer (.ok (responseWith 200 "application/xml")) "https://os.phil-opp.com/atom.xml"
        = .ok (responseWith 200 "application/xml")
      ∧ (responseWith 200 "application/xml").StatusCode = 200
      ∧ Contains (Header.Get (responseWith 200 "application/xml").Header "Content-Type") "xml"
          = true
      ∧ printed (ValidateXMLUrl (constLayer (.ok (responseWith 200 "application/xml")))
          "https://os.phil-opp.com/atom.xml").2
        = ["Exception: https://os.phil-opp.com/atom.xml"] :=
  ⟨rfl, rfl, by decide, by decide⟩

/-- C3, amended. For every URL `U` answered with status 200 and a
`Content-Type` containing `xml`, `ValidateXMLUrl` returns `true`; it is the
outcome Valid (no line printed) when `U` contains no entry of `EXCEPTIONS`, and
the outcome ExceptionOverride (the line `Exception: U`) when it contains one. -/
theorem C3_xml_content_type_accepted (client : HttpLayer) (U : String) (resp : Response)
    (hget : client U = .ok resp) (hstatus : resp.StatusCode = 200)
    (hxml : "xml".toList <:+: (Header.Get resp.Header "Content-Type").toList) :
    (ValidateXMLUrl client U).1 = true
      ∧ (¬ matchesException U → ValidateXMLUrl client U = (true, [.get U, .close U]))
      ∧ (matchesException U →
          ValidateXMLUrl client U
            = (true, [.get U, .println ("Exception: " ++ U), .close U])) := by
  have hc : Contains (Header.Get resp.Header "Content-Type") "xml" = true :=
    (Contains_iff _ _).2 hxml
  by_cases hm : matchesException U
  · have hl := (exceptionLoop_eq_true_iff U).2 hm
    simp [ValidateXMLUrl, hget, hstatus, StatusOK, hl, hm]
  · have hl : exceptionLoop U EXCEPTIONS = false := by
      rw [← Bool.not_eq_true, exceptionLoop_eq_true_iff]; exact hm
    simp [ValidateXMLUrl, hget, hstatus, StatusOK, hl, hm, hc]

/-- Witness for C3: a URL off the exception list answered with status 200 and
`Content-Type: application/rss+xml`. -/
theorem C3_xml_content_type_accepted_witness :
    ¬ matchesException "http://good.test/feed"
      ∧ ValidateXMLUrl (constLayer (.ok (responseWith 200 "application/rss+xml")))
          "http://good.test/feed"
        = (true, [.get "http://good.test/feed", .close "http://good.test/feed"]) :=
  ⟨by decide,
   (C3_xml_content_type_accepted (constLayer (.ok (responseWith 200 "application/rss+xml")))
      "http://good.test/feed" (responseWith 200 "application/rss+xml") rfl rfl
      ((Contains_iff _ _).1 (by decide))).2.1 (by decide)⟩

/-- C4. For every URL `U`, on the exception list or not, when `client.Get`
returns an error `ValidateXMLUrl` returns `false` as an ordinary value, after
the single call of `client.Get`, and prints nothing. -/
theorem C4_network_error_invalid (client : HttpLayer) (U : String) (err : String)
    (hget : client U = .error err) :
    ValidateXMLUrl client U = (false, [.get U])
      ∧ printed (ValidateXMLUrl client U).2 = [] := by
  have hval : ValidateXMLUrl client U = (false, [.get U]) := by
    simp [ValidateXMLUrl, hget]
  refine ⟨hval, ?_⟩
  rw [hval]; rfl

/-- Witness for C4: a URL on the exception list whose host cannot be reached. -/
theorem C4_network_error_invalid_witness :
    matchesException "https://os.phil-opp.com/atom.xml"
      ∧ ValidateXMLUrl (constLayer (.error "dial tcp: no such host"))
          "https://os.phil-opp.com/atom.xml"
        = (false, [.get "https://os.phil-opp.com/atom.xml"]) :=
  ⟨by decide,
   (C4_network_error_invalid (constLayer (.error "dial tcp: no such host"))
      "https://os.phil-opp.com/atom.xml" "dial tcp: no such host" rfl).1⟩

/-- C5. For every URL `U` that contains no entry of `EXCEPTIONS` and every
response with status 200, `ValidateXMLUrl` yields Valid (returns `true`, prints
nothing) exactly when the `Content-Type` value contains the lowercase substring
`xml`, and Invalid otherwise; `application/XML`, `text/html` and an absent
header all yield Invalid. -/
theorem C5_content_type_decides (client : HttpLayer) (U : String) (resp : Response)
    (hget : client U = .ok resp) (hstatus : resp.StatusCode = 200)
    (hno : ¬ matchesException U) :
    (ValidateXMLUrl client U = (true, [.get U, .close U])
        ↔ "xml".toList <:+: (Header.Get resp.Header "Content-Type").toList)
      ∧ (ValidateXMLUrl client U = (false, [.get U, .close U])
        ↔ ¬ "xml".toList <:+: (Header.Get resp.Header "Content-Type").toList)
      ∧ (Header.Get resp.Header "Content-Type" = "application/XML" →
          (ValidateXMLUrl client U).1 = false)
      ∧ (Header.Get resp.Header "Content-Type" = "text/html" →
          (ValidateXMLUrl client U).1 = false)
      ∧ (resp.Header.lookup "Content-Type" = none → (ValidateXMLUrl client U).1 = false) := by
  have hl : exceptionLoop U EXCEPTIONS = false := by
    rw [← Bool.not_eq_true, exceptionLoop_eq_true_iff]; exact hno
  have key : ∀ b, Contains (Header.Get resp.Header "Content-Type") "xml" = b →
      ValidateXMLUrl client U = (b, [.get U, .close U]) := by
    intro b hb
    cases b <;> simp [ValidateXMLUrl, hget, hstatus, StatusOK, hl, hb]
  have hiff := Contains_iff (Header.Get resp.Header "Content-Type") "xml"
  refine ⟨?_, ?_, ?_, ?_, ?_⟩
  · rw [← hiff]
    constructor
    · intro h
      cases hb : Contains (Header.Get resp.Header "Content-Type") "xml" with
      | true => rfl
      | false => rw [key false hb] at h; simp at h
    · intro h; exact key true h
  · rw [← hiff]
    constructor
    · intro h hb
      rw [key true hb] at h; simp at h
    · intro h; exact key false (by simpa using h)
  · intro h
    rw [key false (by rw [h]; decide)]
  · intro h
    rw [key false (by rw [h]; decide)]
  · intro h
    have hg : Header.Get resp.Header "Content-Type" = "" := by
      simp [Header.Get, h]
    rw [key false (by rw [hg]; decide)]

/-- Witness for C5: a URL off the exception list answered with status 200 and
`Content-Type: application/XML`. -/
theorem C5_content_type_decides_witness :
    ¬ matchesException "http://bad.test/feed"
      ∧ (ValidateXMLUrl (constLayer (.ok (responseWith 200 "application/XML")))
          "http://bad.test/feed").1 = false :=
  ⟨by decide,
   (C5_content_type_decides (constLayer (.ok (responseWith 200 "application/XML")))
      "http://bad.test/feed" (responseWith 200 "application/XML") rfl rfl
      (by decide)).2.2.1 (by decide)⟩

/-- C6 as stated fails: for the empty URL `client.Get` is called, also when it
answers with the error of a missing protocol scheme, and an HTTP layer that
answers the empty URL with status 200 and an xml `Content-Type` makes the
result `true`. -/
theorem C6_counterexample :
    fetched (ValidateXMLUrl (constLayer (.error "unsupported protocol scheme")) "").2 = [""]
      ∧ Event.get "" ∈ (ValidateXMLUrl (constLayer (.error "unsupported protocol scheme")) "").2
      ∧ (ValidateXMLUrl (constLayer (.ok (responseWith 200 "application/xml"))) "").1 = true := by
  decide

/-- C6, amended. `ValidateXMLUrl` has no special case for the empty URL: it
calls `client.Get` once with it, prints nothing, and returns `true` exactly when
the HTTP layer answers the empty URL with status 200 and a `Content-Type`
containing `xml`; in every other case, an error among them, it returns `false`. -/
theorem C6_empty_url_goes_through_get (client : HttpLayer) :
    fetched (ValidateXMLUrl client "").2 = [""]
      ∧ printed (ValidateXMLUrl client "").2 = []
      ∧ ((ValidateXMLUrl client "").1 = true ↔
          ∃ resp, client "" = .ok resp ∧ resp.StatusCode = 200
            ∧ "xml".toList <:+: (Header.Get resp.Header "Content-Type").toList) := by
  have hno : ¬ matchesException "" := by decide
  have hl : exceptionLoop "" EXCEPTIONS = false := by decide
  refine ⟨fetched_ValidateXMLUrl client "", ?_, ?_⟩
  · rw [printed_ValidateXMLUrl]; simp [hno]
  · cases hget : client "" with
    | error err => simp [ValidateXMLUrl, hget]
    | ok resp =>
      have hiff := Contains_iff (Header.Get resp.Header "Content-Type") "xml"
      by_cases hs : resp.StatusCode = 200
      · cases hb : Contains (Header.Get resp.Header "Content-Type") "xml" with
        | true =>
          have hv : (ValidateXMLUrl client "").1 = true := by
            simp [ValidateXMLUrl, hget, hs, StatusOK, hl, hb]
          exact ⟨fun _ => ⟨resp, rfl, hs, hiff.1 hb⟩, fun _ => hv⟩
        | false =>
          have hv : (ValidateXMLUrl client "").1 = false := by
            simp [ValidateXMLUrl, hget, hs, StatusOK, hl, hb]
          constructor
          · intro h; rw [hv] at h; cases h
          · rintro ⟨r, hr, _, hx⟩
            cases hr
            rw [hiff.2 hx] at hb; cases hb
      · have hv : (ValidateXMLUrl client "").1 = false := by
          simp [ValidateXMLUrl, hget, hs, StatusOK]
        constructor
        · intro h; rw [hv] at h; cases h
        · rintro ⟨r, hr, hr200, _⟩
          cases hr
          exact absurd hr200 hs

/-! ## Traces of `VerifyFeed` over all schedules -/

theorem Shuffle.perm_append {α : Type} {xs ys zs : List α} (h : Shuffle xs ys zs) :
    zs.Perm (xs ++ ys) := by
  induction h with
  | nil => exact List.Perm.refl _
  | left _ ih => exact List.Perm.cons _ ih
  | right _ ih =>
    exact (List.Perm.cons _ ih).trans List.perm_middle.symm

theorem Shuffle.nil_right {α : Type} : ∀ xs : List α, Shuffle xs [] xs
  | [] => Shuffle.nil
  | _ :: xs => Shuffle.left (Shuffle.nil_right xs)

theorem Shuffle.nil_left {α : Type} : ∀ ys : List α, Shuffle [] ys ys
  | [] => Shuffle.nil
  | _ :: ys => Shuffle.right (Shuffle.nil_left ys)

theorem Shuffle.append {α : Type} : ∀ xs ys : List α, Shuffle xs ys (xs ++ ys)
  | [], ys => Shuffle.nil_left ys
  | _ :: xs, ys => Shuffle.left (Shuffle.append xs ys)

theorem Shuffle.append_swap {α : Type} : ∀ xs ys : List α, Shuffle xs ys (ys ++ xs)
  | xs, [] => Shuffle.nil_right xs
  | xs, _ :: ys => Shuffle.right (Shuffle.append_swap xs ys)

theorem VerifyFeed_cons (client : HttpLayer) (outline : OpmlOutline) (rest : List OpmlOutline) :
    VerifyFeed client (outline :: rest)
      = (ownEvents client outline ++ VerifyFeed client outline.Outlines)
          ++ VerifyFeed client rest := by
  cases outline with
  | mk os t ty u h => simp [VerifyFeed, goroutine, OpmlOutline.Outlines]

theorem VerifyFeedReversed_cons (client : HttpLayer) (outline : OpmlOutline)
    (rest : List OpmlOutline) :
    VerifyFeedReversed client (outline :: rest)
      = VerifyFeedReversed client rest
          ++ (ownEvents client outline ++ VerifyFeedReversed client outline.Outlines) := by
  cases outline with
  | mk os t ty u h => simp [VerifyFeedReversed, goroutineReversed, OpmlOutline.Outlines]

theorem rssUrls_cons (outline : OpmlOutline) (rest : List OpmlOutline) :
    rssUrls (outline :: rest)
      = ((if outline.Type_ = "rss" then [outline.XMLUrl] else []) ++ rssUrls outline.Outlines)
          ++ rssUrls rest := by
  cases outline with
  | mk os t ty u h =>
    simp [rssUrls, rssUrlsOf, OpmlOutline.Outlines, OpmlOutline.Type_, OpmlOutline.XMLUrl]

mutual
theorem VerifyFeed_run (client : HttpLayer) :
    ∀ outlines : List OpmlOutline, VerifyFeedRun client outlines (VerifyFeed client outlines)
  | [] => by rw [VerifyFeed]; exact VerifyFeedRun.nil
  | outline :: rest => by
    rw [VerifyFeed_cons]
    exact VerifyFeedRun.cons (nested_run client outline) (VerifyFeed_run client rest)
      (Shuffle.append _ _)
theorem nested_run (client : HttpLayer) :
    ∀ outline : OpmlOutline,
      VerifyFeedRun client outline.Outlines (VerifyFeed client outline.Outlines)
  | .mk os _ _ _ _ => VerifyFeed_run client os
end

mutual
theorem VerifyFeedReversed_run (client : HttpLayer) :
    ∀ outlines : List OpmlOutline,
      VerifyFeedRun client outlines (VerifyFeedReversed client outlines)
  | [] => by rw [VerifyFeedReversed]; exact VerifyFeedRun.nil
  | outline :: rest => by
    rw [VerifyFeedReversed_cons]
    exact VerifyFeedRun.cons (nestedReversed_run client outline)
      (VerifyFeedReversed_run client rest) (Shuffle.append_swap _ _)
theorem nestedReversed_run (client : HttpLayer) :
    ∀ outline : OpmlOutline,
      VerifyFeedRun client outline.Outlines (VerifyFeedReversed client outline.Outlines)
  | .mk os _ _ _ _ => VerifyFeedReversed_run client os
end

theorem VerifyFeedRun.perm_inOrder {client : HttpLayer} {outlines : List OpmlOutline} {t : List Event}
    (h : VerifyFeedRun client outlines t) : t.Perm (VerifyFeed client outlines) := by
  induction h with
  | nil => rw [VerifyFeed]
  | cons _ _ hs ihc ihr =>
    rw [VerifyFeed_cons]
    exact hs.perm_append.trans (((List.Perm.refl _).append ihc).append ihr)

mutual
theorem rssUrls_length : ∀ outlines : List OpmlOutline,
    (rssUrls outlines).length = rssCount outlines
  | [] => by simp [rssUrls, rssCount]
  | outline :: rest => by
    rw [rssUrls, rssCount, List.length_append, rssUrlsOf_length outline, rssUrls_length rest]
theorem rssUrlsOf_length : ∀ outline : OpmlOutline,
    (rssUrlsOf outline).length = rssCountOf outline
  | .mk os _ ty _ _ => by
    rw [rssUrlsOf, rssCountOf, List.length_append, rssUrls_length os]
    by_cases h : ty = "rss" <;> simp [h]
end

theorem printed_ownEvents (client : HttpLayer) (outline : OpmlOutline) :
    (printed (ownEvents client outline)).Perm
      (if outline.Type_ = "rss" then reportedLinesOf client outline.XMLUrl else []) := by
  unfold ownEvents
  by_cases hty : outline.Type_ = "rss"
  · simp only [hty, if_true, printed_append, printed_ValidateXMLUrl, reportedLinesOf]
    by_cases hv : (ValidateXMLUrl client outline.XMLUrl).1 = true
    · simp [hv, printed]
    · have hv' : (ValidateXMLUrl client outline.XMLUrl).1 = false := by
        simpa using hv
      simp only [hv', printed]
      simp only [List.filterMap_cons, List.filterMap_nil, List.nil_append, Bool.not_false,
        if_true]
      rw [List.append_nil]
      exact List.perm_append_comm
  · simp [hty, printed]

theorem fetched_ownEvents (client : HttpLayer) (outline : OpmlOutline) :
    fetched (ownEvents client outline)
      = if outline.Type_ = "rss" then [outline.XMLUrl] else [] := by
  unfold ownEvents
  by_cases hty : outline.Type_ = "rss"
  · simp only [hty, if_true, fetched_append, fetched_ValidateXMLUrl]
    by_cases hv : (ValidateXMLUrl client outline.XMLUrl).1 = true <;> simp [hv, fetched]
  · simp [hty, fetched]

theorem classifications_ownEvents (client : HttpLayer) (outline : OpmlOutline) :
    classifications (ownEvents client outline)
      = if outline.Type_ = "rss"
        then [(outline.XMLUrl, (ValidateXMLUrl client outline.XMLUrl).1)] else [] := by
  unfold ownEvents
  by_cases hty : outline.Type_ = "rss"
  · simp only [hty, if_true, classifications_append, classifications_ValidateXMLUrl]
    by_cases hv : (ValidateXMLUrl client outline.XMLUrl).1 = true <;>
      simp [hv, classifications]
  · simp [hty, classifications]

/-- Along every schedule, a projection of the trace that is determined outline
by outline is the same, up to order, as the projection collected over the
outlines of type `rss` of the tree. -/
theorem VerifyFeedRun.project {β : Type} {client : HttpLayer} (f : Event → Option β)
    (g : String → List β)
    (hown : ∀ outline : OpmlOutline,
      ((ownEvents client outline).filterMap f).Perm
        (if outline.Type_ = "rss" then g outline.XMLUrl else []))
    {outlines : List OpmlOutline} {t : List Event} (h : VerifyFeedRun client outlines t) :
    (t.filterMap f).Perm ((rssUrls outlines).flatMap g) := by
  induction h with
  | nil => simp [rssUrls]
  | @cons outline rest tc tr t _ _ hs ihc ihr =>
    have h1 := hs.perm_append.filterMap f
    rw [List.filterMap_append, List.filterMap_append] at h1
    rw [rssUrls_cons, List.flatMap_append, List.flatMap_append]
    have h2 : ((ownEvents client outline).filterMap f).Perm
        ((if outline.Type_ = "rss" then [outline.XMLUrl] else []).flatMap g) := by
      refine (hown outline).trans ?_
      by_cases hty : outline.Type_ = "rss" <;> simp [hty]
    exact h1.trans ((h2.append ihc).append ihr)

/-- C7. Along every schedule of `VerifyFeed` on every outline tree,
`ValidateXMLUrl` returns once, and `client.Get` is called once, for each
outline of type `rss` at any depth and for no other outline: the classified
URLs and the fetched URLs are, as multisets, the `xmlUrl` values of the
outlines of type `rss`, and their number is the number N of such outlines. -/
theorem C7_one_call_per_rss_outline (client : HttpLayer) (outlines : List OpmlOutline)
    (t : List Event) (hrun : VerifyFeedRun client outlines t) :
    (((classifications t).map Prod.fst : List String) : Multiset String)
        = ((rssUrls outlines : List String) : Multiset String)
      ∧ ((fetched t : List String) : Multiset String)
        = ((rssUrls outlines : List String) : Multiset String)
      ∧ (classifications t).length = rssCount outlines
      ∧ (fetched t).length = rssCount outlines := by
  have hc : (classifications t).Perm
      ((rssUrls outlines).flatMap fun u => [(u, (ValidateXMLUrl client u).1)]) := by
    refine VerifyFeedRun.project _ _ (fun outline => ?_) hrun
    have := classifications_ownEvents client outline
    unfold classifications at this
    rw [this]
  have hf : (fetched t).Perm ((rssUrls outlines).flatMap fun u => [u]) := by
    refine VerifyFeedRun.project _ _ (fun outline => ?_) hrun
    have := fetched_ownEvents client outline
    unfold fetched at this
    rw [this]
  have e1 : ((rssUrls outlines).flatMap fun u => [u]) = rssUrls outlines := by
    induction rssUrls outlines with
    | nil => rfl
    | cons a l ih => simp [List.flatMap_cons]
  have e2 : (((rssUrls outlines).flatMap fun u => [(u, (ValidateXMLUrl client u).1)]).map
      Prod.fst) = rssUrls outlines := by
    induction rssUrls outlines with
    | nil => rfl
    | cons a l ih => simpa [List.flatMap_cons] using ih
  rw [e1] at hf
  have hc' := hc.map Prod.fst
  rw [e2] at hc'
  refine ⟨Multiset.coe_eq_coe.2 hc', Multiset.coe_eq_coe.2 hf, ?_, ?_⟩
  · rw [← rssUrls_length, ← hc'.length_eq, List.length_map]
  · rw [← rssUrls_length, hf.length_eq]

/-- Witness for C7: the reversed schedule on a tree with a feed that has nested
outlines, outlines with a URL but another type, a repeated URL and a feed at
depth three; three calls are made. -/
theorem C7_one_call_per_rss_outline_witness :
    VerifyFeedRun fixtureLayer sampleOutlines (VerifyFeedReversed fixtureLayer sampleOutlines)
      ∧ rssCount sampleOutlines = 3
      ∧ (fetched (VerifyFeedReversed fixtureLayer sampleOutlines)).length
          = rssCount sampleOutlines :=
  ⟨VerifyFeedReversed_run fixtureLayer sampleOutlines, by decide,
    (C7_one_call_per_rss_outline fixtureLayer sampleOutlines _
      (VerifyFeedReversed_run fixtureLayer sampleOutlines)).2.2.2⟩

/-- C8 as stated fails: a feed whose URL is on the exception list and is
answered with status 404 produces the single line `Invalid: <url>`, while the
claim also assigns it the line `Exception: <url>`. -/
theorem C8_counterexample :
    VerifyFeedRun (constLayer (.ok (bareResponse 404))) exceptionOutlines
        (VerifyFeed (constLayer (.ok (bareResponse 404))) exceptionOutlines)
      ∧ printed (VerifyFeed (constLayer (.ok (bareResponse 404))) exceptionOutlines)
        = ["Invalid: https://os.phil-opp.com/atom.xml"]
      ∧ (rssUrls exceptionOutlines).flatMap
          (claimedLinesOf (constLayer (.ok (bareResponse 404))))
        = ["Invalid: https://os.phil-opp.com/atom.xml",
           "Exception: https://os.phil-opp.com/atom.xml"]
      ∧ ((printed (VerifyFeed (constLayer (.ok (bareResponse 404))) exceptionOutlines)
            : List String) : Multiset String)
        ≠ (((rssUrls exceptionOutlines).flatMap
            (claimedLinesOf (constLayer (.ok (bareResponse 404)))) : List String)
            : Multiset String) := by
  refine ⟨VerifyFeed_run _ _, by decide, by decide, ?_⟩
  intro h
  have hlen := (Multiset.coe_eq_coe.1 h).length_eq
  revert hlen
  decide

/-- C8, amended. Along every schedule the printed lines are, as a multiset, one
`Invalid: <url>` for each outline of type `rss` whose classification is
Invalid, one `Exception: <url>` for each outline of type `rss` whose URL is on
the exception list and was answered with status 200, and nothing else; on the
fixture of the specification they are the two `Invalid:` lines for `bad.test`
and `nested.test`. -/
theorem C8_reported_lines (client : HttpLayer) (outlines : List OpmlOutline)
    (t : List Event) (hrun : VerifyFeedRun client outlines t) :
    ((printed t : List String) : Multiset String)
        = (((rssUrls outlines).flatMap (reportedLinesOf client) : List String)
            : Multiset String)
      ∧ (∀ t', VerifyFeedRun fixtureLayer fixtureOutlines t' →
          ((printed t' : List String) : Multiset String)
            = (["Invalid: http://bad.test/feed", "Invalid: http://nested.test/feed"]
                : List String)) := by
  have key : ∀ (c : HttpLayer) (os : List OpmlOutline) (s : List Event),
      VerifyFeedRun c os s →
        (printed s).Perm ((rssUrls os).flatMap (reportedLinesOf c)) := by
    intro c os s hs
    exact VerifyFeedRun.project _ _ (fun outline => printed_ownEvents c outline) hs
  refine ⟨Multiset.coe_eq_coe.2 (key _ _ _ hrun), ?_⟩
  intro t' ht'
  have h := key _ _ _ ht'
  have e : (rssUrls fixtureOutlines).flatMap (reportedLinesOf fixtureLayer)
      = ["Invalid: http://bad.test/feed", "Invalid: http://nested.test/feed"] := by
    decide
  rw [e] at h
  exact Multiset.coe_eq_coe.2 h

/-- Witness for C8: the reversed schedule on the fixture. -/
theorem C8_reported_lines_witness :
    VerifyFeedRun fixtureLayer fixtureOutlines (VerifyFeedReversed fixtureLayer fixtureOutlines)
      ∧ printed (VerifyFeedReversed fixtureLayer fixtureOutlines)
        = ["Invalid: http://nested.test/feed", "Invalid: http://bad.test/feed"]
      ∧ ((printed (VerifyFeedReversed fixtureLayer fixtureOutlines) : List String)
            : Multiset String)
        = (((rssUrls fixtureOutlines).flatMap (reportedLinesOf fixtureLayer) : List String)
            : Multiset String) :=
  ⟨VerifyFeedReversed_run _ _, by decide,
    (C8_reported_lines fixtureLayer fixtureOutlines _ (VerifyFeedReversed_run _ _)).1⟩

/-- C10. Two runs of `VerifyFeed` on the same outline tree against the same
HTTP layer, under any two schedules, have the same multiset of events, hence
of classification results and of printed lines; each result is that of
`ValidateXMLUrl` on the URL, and what a goroutine does for its outline depends
only on the type tag, the URL and the answer of the HTTP layer for that URL. -/
theorem C10_runs_agree (client : HttpLayer) (outlines : List OpmlOutline)
    (t₁ t₂ : List Event) (h₁ : VerifyFeedRun client outlines t₁)
    (h₂ : VerifyFeedRun client outlines t₂) :
    ((t₁ : List Event) : Multiset Event) = ((t₂ : List Event) : Multiset Event)
      ∧ ((classifications t₁ : List (String × Bool)) : Multiset (String × Bool))
          = ((classifications t₂ : List (String × Bool)) : Multiset (String × Bool))
      ∧ ((printed t₁ : List String) : Multiset String)
          = ((printed t₂ : List String) : Multiset String)
      ∧ ((classifications t₁ : List (String × Bool)) : Multiset (String × Bool))
          = (((rssUrls outlines).map fun u => (u, (ValidateXMLUrl client u).1)
              : List (String × Bool)) : Multiset (String × Bool))
      ∧ (∀ (client' : HttpLayer) (o o' : OpmlOutline),
          o.Type_ = o'.Type_ → o.XMLUrl = o'.XMLUrl → client o.XMLUrl = client' o'.XMLUrl →
            ownEvents client o = ownEvents client' o') := by
  have hp : t₁.Perm t₂ := h₁.perm_inOrder.trans h₂.perm_inOrder.symm
  have hc : (classifications t₁).Perm
      ((rssUrls outlines).flatMap fun u => [(u, (ValidateXMLUrl client u).1)]) := by
    refine VerifyFeedRun.project _ _ (fun outline => ?_) h₁
    have := classifications_ownEvents client outline
    unfold classifications at this
    rw [this]
  have e : ((rssUrls outlines).flatMap fun u => [(u, (ValidateXMLUrl client u).1)])
      = (rssUrls outlines).map fun u => (u, (ValidateXMLUrl client u).1) := by
    induction rssUrls outlines with
    | nil => rfl
    | cons a l ih => simpa [List.flatMap_cons] using ih
  rw [e] at hc
  refine ⟨Multiset.coe_eq_coe.2 hp, Multiset.coe_eq_coe.2 (hp.filterMap _),
    Multiset.coe_eq_coe.2 (hp.filterMap _), Multiset.coe_eq_coe.2 hc, ?_⟩
  intro client' o o' hty hurl hans
  have hv : ValidateXMLUrl client o.XMLUrl = ValidateXMLUrl client' o'.XMLUrl := by
    unfold ValidateXMLUrl
    rw [hans, hurl]
  unfold ownEvents
  rw [hv, hty, hurl]

/-- Witness for C10: the in-order and the reversed schedule on the fixture give
different traces with the same printed lines. -/
theorem C10_runs_agree_witness :
    VerifyFeedRun fixtureLayer fixtureOutlines (VerifyFeed fixtureLayer fixtureOutlines)
      ∧ VerifyFeedRun fixtureLayer fixtureOutlines
          (VerifyFeedReversed fixtureLayer fixtureOutlines)
      ∧ VerifyFeed fixtureLayer fixtureOutlines
          ≠ VerifyFeedReversed fixtureLayer fixtureOutlines
      ∧ ((printed (VerifyFeed fixtureLayer fixtureOutlines) : List String) : Multiset String)
          = ((printed (VerifyFeedReversed fixtureLayer fixtureOutlines) : List String)
              : Multiset String) :=
  ⟨VerifyFeed_run _ _, VerifyFeedReversed_run _ _, by decide,
    (C10_runs_agree fixtureLayer fixtureOutlines _ _ (VerifyFeed_run _ _)
      (VerifyFeedReversed_run _ _)).2.2.1⟩

/-! ## The join of `VerifyFeed` -/

theorem lt_of_getElem?_eq_some {α : Type} {l : List α} {i : Nat} {a : α}
    (h : l[i]? = some a) : i < l.length := by
  by_contra hcon
  rw [List.getElem?_eq_none (by omega)] at h
  cases h

/-- Reading an activation after one activation was replaced. -/
theorem getElem?_set_cases {α : Type} {l : List α} {i j : Nat} {a x : α}
    (h : (l.set i a)[j]? = some x) :
    (i = j ∧ x = a) ∨ (i ≠ j ∧ l[j]? = some x) := by
  rw [List.getElem?_set] at h
  by_cases hij : i = j
  · left
    rw [if_pos hij] at h
    by_cases hl : i < l.length
    · rw [if_pos hl] at h
      exact ⟨hij, (Option.some.inj h).symm⟩
    · rw [if_neg hl] at h; cases h
  · right
    rw [if_neg hij] at h
    exact ⟨hij, h⟩

theorem getElem?_concat_cases {α : Type} {l : List α} {i : Nat} {a x : α}
    (h : (l ++ [a])[i]? = some x) : l[i]? = some x ∨ (i = l.length ∧ x = a) := by
  rw [List.getElem?_append] at h
  by_cases hi : i < l.length
  · rw [if_pos hi] at h
    exact Or.inl h
  · rw [if_neg hi] at h
    right
    have hlt := lt_of_getElem?_eq_some h
    simp only [List.length_singleton] at hlt
    have hi0 : i - l.length = 0 := by omega
    rw [hi0] at h
    simp only [List.getElem?_cons_zero, Option.some.injEq] at h
    exact ⟨by omega, h.symm⟩

theorem countP_set_of_eq {α : Type} (p : α → Bool) :
    ∀ (l : List α) (g : Nat) (t t' : α), l[g]? = some t → p t' = p t →
      (l.set g t').countP p = l.countP p
  | [], _, _, _, h, _ => by cases h
  | a :: l, 0, t, t', h, hp => by
    simp only [List.getElem?_cons_zero, Option.some.injEq] at h
    subst h
    simp [List.countP_cons, hp]
  | a :: l, g + 1, t, t', h, hp => by
    simp only [List.getElem?_cons_succ] at h
    simp [List.countP_cons, countP_set_of_eq p l g t t' h hp]

theorem countP_set_drop {α : Type} (p : α → Bool) :
    ∀ (l : List α) (g : Nat) (t t' : α), l[g]? = some t → p t = true → p t' = false →
      (l.set g t').countP p + 1 = l.countP p
  | [], _, _, _, h, _, _ => by cases h
  | a :: l, 0, t, t', h, hp, hp' => by
    simp only [List.getElem?_cons_zero, Option.some.injEq] at h
    subst h
    simp [List.countP_cons, hp, hp']
  | a :: l, g + 1, t, t', h, hp, hp' => by
    simp only [List.getElem?_cons_succ] at h
    have ih := countP_set_drop p l g t t' h hp hp'
    simp only [List.set_cons_succ, List.countP_cons]
    omega

theorem frameReturned_set {s : Config} {c : Nat} {f : Frame} (f' : Frame)
    (tasks : List Task)
    (hf : s.frames[c]? = some f) (hret : f.returned = true → f'.returned = true)
    {c' : Nat} (h : frameReturned s c' = true) :
    frameReturned { frames := s.frames.set c f', tasks := tasks } c' = true := by
  unfold frameReturned at h ⊢
  simp only [List.getElem?_set]
  by_cases hc : c = c'
  · subst hc
    have hlt : c < s.frames.length := by
      by_contra hcon
      rw [List.getElem?_eq_none (by omega)] at hf
      cases hf
    rw [hf] at h
    simp only [if_true, hlt]
    exact hret h
  · simp only [if_neg hc]
    exact h

theorem frameReturned_concat {s : Config} (f' : Frame) (tasks : List Task) {c : Nat}
    (h : frameReturned s c = true) :
    frameReturned { frames := s.frames ++ [f'], tasks := tasks } c = true := by
  unfold frameReturned at h ⊢
  cases hf : s.frames[c]? with
  | none => rw [hf] at h; cases h
  | some f =>
    rw [hf] at h
    simp only at h ⊢
    rw [List.getElem?_append_left (lt_of_getElem?_eq_some hf), hf]
    exact h

/-- The three moves of an activation, spelled out. -/
theorem stepFrame_cases {s s' : Config} {c : Nat} (h : stepFrame s c = some s') :
    ∃ f, s.frames[c]? = some f ∧ f.returned = false ∧
      ((∃ outline rest, f.pending = outline :: rest ∧ f.added = false ∧
          s' = { s with frames := s.frames.set c { f with wg := f.wg + 1, added := true } })
        ∨ (∃ outline rest, f.pending = outline :: rest ∧ f.added = true ∧
          s' = { frames := s.frames.set c { f with pending := rest, added := false },
                 tasks := s.tasks ++ [⟨outline, c, .classify, none⟩] })
        ∨ (f.pending = [] ∧ f.wg = 0 ∧
          s' = { s with frames := s.frames.set c { f with returned := true } })) := by
  unfold stepFrame at h
  cases hf : s.frames[c]? with
  | none => rw [hf] at h; cases h
  | some f =>
    rw [hf] at h
    simp only at h
    refine ⟨f, rfl, ?_⟩
    cases hr : f.returned with
    | true => rw [hr] at h; simp at h
    | false =>
      rw [hr] at h
      simp only [Bool.false_eq_true, if_false] at h
      refine ⟨rfl, ?_⟩
      cases hp : f.pending with
      | nil =>
        rw [hp] at h
        simp only at h
        by_cases hw : f.wg = 0
        · rw [if_pos hw] at h
          exact Or.inr (Or.inr ⟨rfl, hw, (Option.some.inj h).symm⟩)
        · rw [if_neg hw] at h; cases h
      | cons outline rest =>
        rw [hp] at h
        simp only at h
        cases ha : f.added with
        | true =>
          rw [ha] at h
          simp only [if_true] at h
          exact Or.inr (Or.inl ⟨outline, rest, rfl, rfl, (Option.some.inj h).symm⟩)
        | false =>
          rw [ha] at h
          simp only [Bool.false_eq_true, if_false] at h
          exact Or.inl ⟨outline, rest, rfl, rfl, (Option.some.inj h).symm⟩

/-- The five moves of a goroutine, spelled out. -/
theorem stepTask_cases {s s' : Config} {g : Nat} (h : stepTask s g = some s') :
    ∃ t, s.tasks[g]? = some t ∧
      ((t.pc = .classify ∧
          s' = { s with tasks := s.tasks.set g { t with pc := .recurse } })
        ∨ (t.pc = .recurse ∧ t.outline.Outlines.isEmpty = true ∧
          s' = { s with tasks := s.tasks.set g { t with pc := .signal } })
        ∨ (t.pc = .recurse ∧ t.outline.Outlines.isEmpty = false ∧
          s' = { frames := s.frames ++ [⟨t.outline.Outlines, false, 0, false⟩],
                 tasks := s.tasks.set g
                   { t with pc := .inCall, callee := some s.frames.length } })
        ∨ (t.pc = .inCall ∧ (∃ c f, t.callee = some c ∧ s.frames[c]? = some f ∧
            f.returned = true) ∧
          s' = { s with tasks := s.tasks.set g { t with pc := .signal } })
        ∨ (t.pc = .signal ∧ ∃ f n, s.frames[t.parent]? = some f ∧ f.wg = n + 1 ∧
          s' = { frames := s.frames.set t.parent { f with wg := n },
                 tasks := s.tasks.set g { t with pc := .finished } })) := by
  unfold stepTask at h
  cases ht : s.tasks[g]? with
  | none => rw [ht] at h; cases h
  | some t =>
    rw [ht] at h
    simp only at h
    refine ⟨t, rfl, ?_⟩
    cases hpc : t.pc with
    | classify =>
      rw [hpc] at h
      exact Or.inl ⟨rfl, (Option.some.inj h).symm⟩
    | recurse =>
      rw [hpc] at h
      simp only at h
      cases he : t.outline.Outlines.isEmpty with
      | true =>
        rw [he] at h
        exact Or.inr (Or.inl ⟨rfl, rfl, (Option.some.inj h).symm⟩)
      | false =>
        rw [he] at h
        exact Or.inr (Or.inr (Or.inl ⟨rfl, rfl, (Option.some.inj h).symm⟩))
    | inCall =>
      rw [hpc] at h
      simp only at h
      cases hc : t.callee with
      | none => rw [hc] at h; cases h
      | some c =>
        rw [hc] at h
        simp only at h
        cases hf : s.frames[c]? with
        | none => rw [hf] at h; cases h
        | some f =>
          rw [hf] at h
          simp only at h
          cases hr : f.returned with
          | false => rw [hr] at h; simp at h
          | true =>
            rw [hr] at h
            exact Or.inr (Or.inr (Or.inr (Or.inl
              ⟨rfl, ⟨c, f, rfl, hf, hr⟩, (Option.some.inj h).symm⟩)))
    | signal =>
      rw [hpc] at h
      simp only at h
      cases hf : s.frames[t.parent]? with
      | none => rw [hf] at h; cases h
      | some f =>
        rw [hf] at h
        simp only at h
        cases hw : f.wg with
        | zero => rw [hw] at h; cases h
        | succ n =>
          rw [hw] at h
          exact Or.inr (Or.inr (Or.inr (Or.inr
            ⟨rfl, f, n, rfl, hw, (Option.some.inj h).symm⟩)))
    | finished => rw [hpc] at h; cases h

theorem Inv_initial (outlines : List OpmlOutline) : Inv (initial outlines) := by
  refine ⟨?_, ?_, ?_, ?_, ?_⟩
  · intro c f hf
    cases c with
    | zero =>
      simp only [initial, List.getElem?_cons_zero, Option.some.injEq] at hf
      subst hf
      simp [unfinishedOf, initial]
    | succ c => simp [initial] at hf
  · intro c f hf hr
    cases c with
    | zero =>
      simp only [initial, List.getElem?_cons_zero, Option.some.injEq] at hf
      subst hf
      simp at hr
    | succ c => simp [initial] at hf
  · intro g t c hg; simp [initial] at hg
  · intro g t hg; simp [initial] at hg
  · intro g t hg; simp [initial] at hg

/-- A goroutine moves between two program points before `wg.Done()`. -/
theorem Inv_local {s : Config} {g : Nat} {t : Task} {pc' : TaskPc} (hinv : Inv s)
    (ht : s.tasks[g]? = some t) (hpc : t.pc ≠ .finished) (hpc' : pc' ≠ .finished)
    (hjoin : pc' = .signal → ∀ c, t.callee = some c → frameReturned s c = true)
    (hearly : (pc' = .classify ∨ pc' = .recurse) → t.callee = none) :
    Inv { s with tasks := s.tasks.set g { t with pc := pc' } } := by
  refine ⟨?_, hinv.returned_zero, ?_, ?_, ?_⟩
  · intro c f hf
    have hcount : unfinishedOf { s with tasks := s.tasks.set g { t with pc := pc' } } c
        = unfinishedOf s c := by
      unfold unfinishedOf
      refine countP_set_of_eq _ _ _ t _ ht ?_
      have h1 : (pc' == TaskPc.finished) = false := by simpa using hpc'
      have h2 : (t.pc == TaskPc.finished) = false := by simpa using hpc
      simp only [h1, h2]
    rw [hcount]
    exact hinv.counter c f hf
  · intro g' t' c hg' hpcs hcal
    rcases getElem?_set_cases hg' with ⟨_, ht'⟩ | ⟨_, hold⟩
    · subst ht'
      rcases hpcs with h | h
      · exact hjoin h c hcal
      · exact absurd h hpc'
    · exact hinv.joined g' t' c hold hpcs hcal
  · intro g' t' hg'
    rcases getElem?_set_cases hg' with ⟨_, ht'⟩ | ⟨_, hold⟩
    · subst ht'
      exact hinv.parent_lt g t ht
    · exact hinv.parent_lt g' t' hold
  · intro g' t' hg' hpcs
    rcases getElem?_set_cases hg' with ⟨_, ht'⟩ | ⟨_, hold⟩
    · subst ht'
      exact hearly hpcs
    · exact hinv.early g' t' hold hpcs

/-- The loop executes `wg.Add(1)`. -/
theorem Inv_add {s : Config} {c : Nat} {f : Frame} (hinv : Inv s)
    (hf : s.frames[c]? = some f) (hr : f.returned = false) (ha : f.added = false) :
    Inv { s with frames := s.frames.set c { f with wg := f.wg + 1, added := true } } := by
  refine ⟨?_, ?_, ?_, ?_, hinv.early⟩
  · intro c' f' hf'
    rcases getElem?_set_cases hf' with ⟨hcc, hff⟩ | ⟨_, hold⟩
    · subst hcc; subst hff
      have := hinv.counter c f hf
      rw [ha] at this
      simp only [Bool.false_eq_true, if_false, Nat.add_zero] at this
      simp only [if_true]
      rw [this]
      rfl
    · exact hinv.counter c' f' hold
  · intro c' f' hf' hr'
    rcases getElem?_set_cases hf' with ⟨_, hff⟩ | ⟨_, hold⟩
    · subst hff
      rw [hr] at hr'; cases hr'
    · exact hinv.returned_zero c' f' hold hr'
  · intro g t c' hg hpcs hcal
    exact frameReturned_set { f with wg := f.wg + 1, added := true } s.tasks hf (fun h => h)
      (hinv.joined g t c' hg hpcs hcal)
  · intro g t hg
    rw [List.length_set]
    exact hinv.parent_lt g t hg

/-- The loop executes the `go` statement. -/
theorem Inv_spawn {s : Config} {c : Nat} {f : Frame} (outline : OpmlOutline)
    (rest : List OpmlOutline) (hinv : Inv s)
    (hf : s.frames[c]? = some f) (hr : f.returned = false) (ha : f.added = true) :
    Inv { frames := s.frames.set c { f with pending := rest, added := false },
          tasks := s.tasks ++ [⟨outline, c, .classify, none⟩] } := by
  refine ⟨?_, ?_, ?_, ?_, ?_⟩
  · intro c' f' hf'
    rcases getElem?_set_cases hf' with ⟨hcc, hff⟩ | ⟨hcc, hold⟩
    · subst hcc; subst hff
      have := hinv.counter c f hf
      rw [ha] at this
      simp only [if_true] at this
      simp only [Bool.false_eq_true, if_false, Nat.add_zero]
      rw [this]
      simp [unfinishedOf, List.countP_append]
    · have := hinv.counter c' f' hold
      rw [this]
      simp [unfinishedOf, List.countP_append, hcc]
  · intro c' f' hf' hr'
    rcases getElem?_set_cases hf' with ⟨_, hff⟩ | ⟨_, hold⟩
    · subst hff
      rw [hr] at hr'; cases hr'
    · exact hinv.returned_zero c' f' hold hr'
  · intro g t c' hg hpcs hcal
    rcases getElem?_concat_cases hg with hold | ⟨_, hnew⟩
    · exact frameReturned_set { f with pending := rest, added := false } _ hf (fun h => h)
        (hinv.joined g t c' hold hpcs hcal)
    · subst hnew
      rcases hpcs with h | h <;> cases h
  · intro g t hg
    rw [List.length_set]
    rcases getElem?_concat_cases hg with hold | ⟨_, hnew⟩
    · exact hinv.parent_lt g t hold
    · subst hnew
      exact lt_of_getElem?_eq_some hf
  · intro g t hg hpcs
    rcases getElem?_concat_cases hg with hold | ⟨_, hnew⟩
    · exact hinv.early g t hold hpcs
    · subst hnew; rfl

/-- The call `wg.Wait()` returns. -/
theorem Inv_wait {s : Config} {c : Nat} {f : Frame} (hinv : Inv s)
    (hf : s.frames[c]? = some f) (hw : f.wg = 0) :
    Inv { s with frames := s.frames.set c { f with returned := true } } := by
  refine ⟨?_, ?_, ?_, ?_, hinv.early⟩
  · intro c' f' hf'
    rcases getElem?_set_cases hf' with ⟨hcc, hff⟩ | ⟨_, hold⟩
    · subst hcc; subst hff
      exact hinv.counter c f hf
    · exact hinv.counter c' f' hold
  · intro c' f' hf' hr'
    rcases getElem?_set_cases hf' with ⟨_, hff⟩ | ⟨_, hold⟩
    · subst hff
      exact hw
    · exact hinv.returned_zero c' f' hold hr'
  · intro g t c' hg hpcs hcal
    exact frameReturned_set { f with returned := true } s.tasks hf (fun _ => rfl)
      (hinv.joined g t c' hg hpcs hcal)
  · intro g t hg
    rw [List.length_set]
    exact hinv.parent_lt g t hg

/-- A goroutine calls `VerifyFeed` on its nested outlines. -/
theorem Inv_call {s : Config} {g : Nat} {t : Task} (hinv : Inv s)
    (ht : s.tasks[g]? = some t) (hpc : t.pc = .recurse) :
    Inv { frames := s.frames ++ [⟨t.outline.Outlines, false, 0, false⟩],
          tasks := s.tasks.set g { t with pc := .inCall, callee := some s.frames.length } } := by
  have hsame : ∀ c, unfinishedOf
      { frames := s.frames ++ [⟨t.outline.Outlines, false, 0, false⟩],
        tasks := s.tasks.set g { t with pc := .inCall, callee := some s.frames.length } } c
      = unfinishedOf s c := by
    intro c
    unfold unfinishedOf
    refine countP_set_of_eq _ _ _ t _ ht ?_
    have h2 : (t.pc == TaskPc.finished) = false := by rw [hpc]; rfl
    have h1 : (TaskPc.inCall == TaskPc.finished) = false := rfl
    simp only [h1, h2]
  refine ⟨?_, ?_, ?_, ?_, ?_⟩
  · intro c' f' hf'
    rw [hsame]
    rcases getElem?_concat_cases hf' with hold | ⟨hcc, hnew⟩
    · exact hinv.counter c' f' hold
    · subst hnew
      simp only [Bool.false_eq_true, if_false, Nat.add_zero]
      symm
      unfold unfinishedOf
      rw [List.countP_eq_zero]
      intro a ha
      obtain ⟨i, hi⟩ := List.mem_iff_getElem?.1 ha
      have := hinv.parent_lt i a hi
      have hne : a.parent ≠ c' := by omega
      simp [hne]
  · intro c' f' hf' hr'
    rcases getElem?_concat_cases hf' with hold | ⟨_, hnew⟩
    · exact hinv.returned_zero c' f' hold hr'
    · subst hnew; cases hr'
  · intro g' t' c' hg' hpcs hcal
    rcases getElem?_set_cases hg' with ⟨_, ht'⟩ | ⟨_, hold⟩
    · subst ht'
      rcases hpcs with h | h <;> cases h
    · exact frameReturned_concat _ _ (hinv.joined g' t' c' hold hpcs hcal)
  · intro g' t' hg'
    rw [List.length_append, List.length_singleton]
    rcases getElem?_set_cases hg' with ⟨_, ht'⟩ | ⟨_, hold⟩
    · subst ht'
      exact Nat.lt_succ_of_lt (hinv.parent_lt g t ht)
    · exact Nat.lt_succ_of_lt (hinv.parent_lt g' t' hold)
  · intro g' t' hg' hpcs
    rcases getElem?_set_cases hg' with ⟨_, ht'⟩ | ⟨_, hold⟩
    · subst ht'
      rcases hpcs with h | h <;> cases h
    · exact hinv.early g' t' hold hpcs

/-- A goroutine executes `wg.Done()`. -/
theorem Inv_done {s : Config} {g : Nat} {t : Task} {f : Frame} {n : Nat} (hinv : Inv s)
    (ht : s.tasks[g]? = some t) (hpc : t.pc = .signal)
    (hf : s.frames[t.parent]? = some f) (hw : f.wg = n + 1) :
    Inv { frames := s.frames.set t.parent { f with wg := n },
          tasks := s.tasks.set g { t with pc := .finished } } := by
  refine ⟨?_, ?_, ?_, ?_, ?_⟩
  · intro c' f' hf'
    rcases getElem?_set_cases hf' with ⟨hcc, hff⟩ | ⟨hcc, hold⟩
    · subst hff
      have hold := hinv.counter t.parent f hf
      have hdrop : unfinishedOf
          { frames := s.frames.set t.parent { f with wg := n },
            tasks := s.tasks.set g { t with pc := .finished } } c' + 1
          = unfinishedOf s t.parent := by
        unfold unfinishedOf
        rw [← hcc]
        refine countP_set_drop _ _ _ t _ ht ?_ ?_
        · rw [hpc]; simp
        · simp
      simp only
      omega
    · have hsame : unfinishedOf
          { frames := s.frames.set t.parent { f with wg := n },
            tasks := s.tasks.set g { t with pc := .finished } } c'
          = unfinishedOf s c' := by
        unfold unfinishedOf
        refine countP_set_of_eq _ _ _ t _ ht ?_
        simp [hcc]
      rw [hsame]
      exact hinv.counter c' f' hold
  · intro c' f' hf' hr'
    rcases getElem?_set_cases hf' with ⟨_, hff⟩ | ⟨_, hold⟩
    · subst hff
      have := hinv.returned_zero t.parent f hf hr'
      omega
    · exact hinv.returned_zero c' f' hold hr'
  · intro g' t' c' hg' hpcs hcal
    rcases getElem?_set_cases hg' with ⟨_, ht'⟩ | ⟨_, hold⟩
    · subst ht'
      exact frameReturned_set { f with wg := n } _ hf (fun h => h)
        (hinv.joined g t c' ht (Or.inl hpc) hcal)
    · exact frameReturned_set { f with wg := n } _ hf (fun h => h)
        (hinv.joined g' t' c' hold hpcs hcal)
  · intro g' t' hg'
    rw [List.length_set]
    rcases getElem?_set_cases hg' with ⟨_, ht'⟩ | ⟨_, hold⟩
    · subst ht'
      exact hinv.parent_lt g t ht
    · exact hinv.parent_lt g' t' hold
  · intro g' t' hg' hpcs
    rcases getElem?_set_cases hg' with ⟨_, ht'⟩ | ⟨_, hold⟩
    · subst ht'
      rcases hpcs with h | h <;> cases h
    · exact hinv.early g' t' hold hpcs

theorem Inv_step {s s' : Config} {a : Thread} (hinv : Inv s) (h : step s a = some s') :
    Inv s' := by
  cases a with
  | frame c =>
    obtain ⟨f, hf, hr, hcase⟩ := stepFrame_cases h
    rcases hcase with ⟨o, rest, _, ha, rfl⟩ | ⟨o, rest, _, ha, rfl⟩ | ⟨_, hw, rfl⟩
    · exact Inv_add hinv hf hr ha
    · exact Inv_spawn o rest hinv hf hr ha
    · exact Inv_wait hinv hf hw
  | task g =>
    obtain ⟨t, ht, hcase⟩ := stepTask_cases h
    rcases hcase with ⟨hpc, rfl⟩ | ⟨hpc, _, rfl⟩ | ⟨hpc, _, rfl⟩
      | ⟨hpc, ⟨c, f, hc, hf, hr⟩, rfl⟩ | ⟨hpc, f, n, hf, hw, rfl⟩
    · refine Inv_local hinv ht (by rw [hpc]; decide) (by decide) (fun h => by cases h)
        (fun _ => hinv.early g t ht (Or.inl hpc))
    · refine Inv_local hinv ht (by rw [hpc]; decide) (by decide) ?_ (fun h => ?_)
      · intro _ c hc
        rw [hinv.early g t ht (Or.inr hpc)] at hc
        cases hc
      · rcases h with h | h <;> cases h
    · exact Inv_call hinv ht hpc
    · refine Inv_local hinv ht (by rw [hpc]; decide) (by decide) ?_ (fun h => ?_)
      · intro _ c' hc'
        rw [hc] at hc'
        cases hc'
        unfold frameReturned
        rw [hf]
        exact hr
      · rcases h with h | h <;> cases h
    · exact Inv_done hinv ht hpc hf hw

theorem Inv_exec : ∀ (schedule : List Thread) {s s' : Config}, Inv s →
    exec s schedule = some s' → Inv s'
  | [], s, s', hinv, h => by
    simp only [exec, Option.some.injEq] at h
    subst h
    exact hinv
  | a :: schedule, s, s', hinv, h => by
    simp only [exec] at h
    cases hstep : step s a with
    | none => rw [hstep] at h; cases h
    | some s₁ =>
      rw [hstep] at h
      exact Inv_exec schedule (Inv_step hinv hstep) h

/-- In a state that satisfies the invariant, every goroutine started by an
activation that has returned has ended. -/
theorem Inv.children_finished {s : Config} (hinv : Inv s) {c : Nat}
    (hret : frameReturned s c = true) {g : Nat} {t : Task} (ht : s.tasks[g]? = some t)
    (hparent : t.parent = c) : t.pc = .finished := by
  unfold frameReturned at hret
  cases hf : s.frames[c]? with
  | none => rw [hf] at hret; cases hret
  | some f =>
    rw [hf] at hret
    simp only at hret
    have hzero := hinv.returned_zero c f hf hret
    have hcount := hinv.counter c f hf
    have hnone : unfinishedOf s c = 0 := by omega
    unfold unfinishedOf at hnone
    rw [List.countP_eq_zero] at hnone
    have hmem : t ∈ s.tasks := List.mem_iff_getElem?.2 ⟨g, ht⟩
    have := hnone t hmem
    by_contra hne
    apply this
    simp [hparent, hne]

theorem Inv.started_finished {s : Config} (hinv : Inv s) {g c : Nat}
    (h : StartedUnder s g c) (hret : frameReturned s c = true) :
    ∃ t, s.tasks[g]? = some t ∧ t.pc = .finished := by
  induction h with
  | direct ht hparent => exact ⟨_, ht, hinv.children_finished hret ht hparent⟩
  | nested _ ht' hcallee _ ih₁ ih₂ =>
    obtain ⟨t₁, ht₁, hfin⟩ := ih₁ hret
    rw [ht'] at ht₁
    cases ht₁
    exact ih₂ (hinv.joined _ _ _ ht' (Or.inr hfin) hcallee)

/-- While goroutines of activation 0 are still running, `wg.Wait()` cannot be
passed: the schedule that lets activation 0 move after sixteen steps is stuck. -/
theorem wait_blocks_on_fixture :
    exec (initial fixtureOutlines) (fixtureSchedule.take 16 ++ [.frame 0]) = none := by
  rfl

/-- In the final state of the fixture, goroutine 3 was started under
activation 0, through the nested call of goroutine 2. -/
theorem fixture_nested_started : StartedUnder fixtureFinal 3 0 :=
  StartedUnder.nested
    (StartedUnder.direct (rfl : fixtureFinal.tasks[2]? = some _) rfl)
    (rfl : fixtureFinal.tasks[2]? = some _) rfl
    (StartedUnder.direct (rfl : fixtureFinal.tasks[3]? = some _) rfl)

/-- C9. In every state reachable from the call `VerifyFeed(outlines)` under any
schedule, if an activation of `VerifyFeed` has returned from `wg.Wait()`, then
every goroutine it started, and every goroutine started at any depth by the
nested calls of those goroutines, has ended: it is past its classification, its
nested call has returned, and it has executed `wg.Done()`. -/
theorem C9_wait_joins_all (outlines : List OpmlOutline) (schedule : List Thread)
    (s : Config) (hexec : exec (initial outlines) schedule = some s)
    (c : Nat) (hret : frameReturned s c = true)
    (g : Nat) (hg : StartedUnder s g c) :
    taskFinished s g = true
      ∧ (∀ t c', s.tasks[g]? = some t → t.callee = some c' → frameReturned s c' = true) := by
  have hinv : Inv s := Inv_exec schedule (Inv_initial outlines) hexec
  obtain ⟨t, ht, hfin⟩ := hinv.started_finished hg hret
  refine ⟨?_, ?_⟩
  · unfold taskFinished
    rw [ht]
    simp [hfin]
  · intro t₁ c' ht₁ hcallee
    rw [ht] at ht₁
    cases ht₁
    exact hinv.joined g t c' ht (Or.inr hfin) hcallee

/-- Witness for C9: the fixture under `fixtureSchedule`; activation 0 has
returned and goroutine 3, started by the nested call of goroutine 2, has ended. -/
theorem C9_wait_joins_all_witness :
    exec (initial fixtureOutlines) fixtureSchedule = some fixtureFinal
      ∧ frameReturned fixtureFinal 0 = true
      ∧ StartedUnder fixtureFinal 3 0
      ∧ taskFinished fixtureFinal 3 = true :=
  ⟨rfl, rfl, fixture_nested_started,
    (C9_wait_joins_all fixtureOutlines fixtureSchedule fixtureFinal rfl 0 rfl 3
      fixture_nested_started).1⟩

end RssFeedVerifier
